import Mathlib

/-!
Shallow embedding of the REv operator console (src/app.js and the device
library src/unnamed/part_000) for formal verification of its specification.

JavaScript numbers are modelled as rationals together with an explicit
non-finite marker (`JNum.nonfinite` stands for NaN / Infinity); `null` and
`undefined` are modelled with `Option`.  All definitions are translated
directly from the JavaScript source; each definition's doc comment names the
source function it embeds.
-/

namespace REv

/-- A JavaScript number: either non-finite (NaN, Infinity) or a finite value
modelled as a rational. -/
inductive JNum where
  | nonfinite : JNum
  | fin : ℚ → JNum
deriving DecidableEq, Repr

/-- Embeds `sanitizeMetricNumber(field, value)` (src/app.js:3077).
`none` input models `value == null`; `JNum.nonfinite` models a value whose
`Number(...)` conversion is not finite. -/
def sanitizeMetricNumber (field : String) (value : Option JNum) : Option ℚ :=
  match value with
  | none => none
  | some JNum.nonfinite => none
  | some (JNum.fin n) =>
    if field = "volts" then
      if n < 0 then none
      else if n > 1000 then none
      else some n
    else if field = "kw" then
      if |n| > 1000 then none
      else some n
    else some n

/-- A connection edge (fromId, toId, kw) as held in `this.connections`
(src/app.js).  `kw` is `Option JNum`: `none` models a stored `null`. -/
structure Conn where
  fromId : String
  toId : String
  kw : Option JNum
deriving DecidableEq, Repr

/-- Embeds `getConnectionKW(edge)` (src/app.js:388): the effective kW of an
edge is its stored value when finite and nonnegative, otherwise 0. -/
def getConnectionKW (e : Conn) : ℚ :=
  match e.kw with
  | some (JNum.fin k) => if 0 ≤ k then k else 0
  | _ => 0

/-- One loop iteration of `computeConnTotals()` (src/app.js:420-424): add the
edge's effective kW to its provider's give total and its consumer's get
total. -/
def connTotalsStep (acc : (String → ℚ) × (String → ℚ)) (e : Conn) :
    (String → ℚ) × (String → ℚ) :=
  let kw := getConnectionKW e
  (fun id => if id = e.fromId then acc.1 id + kw else acc.1 id,
   fun id => if id = e.toId then acc.2 id + kw else acc.2 id)

/-- Embeds `computeConnTotals()` (src/app.js:417): per-provider outgoing
(`giveBy`) and per-consumer incoming (`getBy`) kW totals, as finitely
supported functions (a missing Map key reads as 0, as `get(..) || 0` does). -/
def computeConnTotals (conns : List Conn) : (String → ℚ) × (String → ℚ) :=
  conns.foldl connTotalsStep (fun _ => 0, fun _ => 0)

/-- The dedup key `${fromId}=>${toId}` used by `normalizeConnections`
(src/app.js:487). -/
def connKey (fromId toId : String) : String := fromId ++ "=>" ++ toId

/-- Normalization of a stored kw field as done inside `normalizeConnections`
(src/app.js:490): keep a finite number, otherwise null. -/
def normKW (kw : Option JNum) : Option JNum :=
  match kw with
  | some (JNum.fin q) => some (JNum.fin q)
  | _ => none

/-- Recursive worker for `normalizeConnections`, carrying the `seen` key set. -/
def normalizeAux (existingIds : List String) : List Conn → List String → List Conn
  | [], _ => []
  | e :: rest, seen =>
    if e.fromId = "" ∨ e.toId = "" then normalizeAux existingIds rest seen
    else if ¬ (e.fromId ∈ existingIds ∧ e.toId ∈ existingIds) then
      normalizeAux existingIds rest seen
    else
      let k := connKey e.fromId e.toId
      if k ∈ seen then normalizeAux existingIds rest seen
      else ⟨e.fromId, e.toId, normKW e.kw⟩ :: normalizeAux existingIds rest (k :: seen)

/-- Embeds `normalizeConnections()` (src/app.js:473): drop edges with a blank
or absent endpoint, then de-duplicate by the key `fromId=>toId`, keeping the
first occurrence of each key. -/
def normalizeConnections (existingIds : List String) (conns : List Conn) : List Conn :=
  normalizeAux existingIds conns []

/-- `leadMatch pat l`: `pat` matches at the beginning of `l` (character lists). -/
def leadMatch : List Char → List Char → Bool
  | [], _ => true
  | _ :: _, [] => false
  | a :: as, b :: bs => a = b && leadMatch as bs

/-- `hasSub pat l`: `pat` occurs as a contiguous run somewhere in `l`. -/
def hasSub (pat : List Char) : List Char → Bool
  | [] => leadMatch pat []
  | b :: bs => leadMatch pat (b :: bs) || hasSub pat bs

/-- JavaScript `String.prototype.includes` on our strings. -/
def strIncludes (s pat : String) : Bool := hasSub pat.data s.data

/-- JavaScript `String.prototype.toLowerCase` (ASCII, which is all the code
compares). -/
def strToLower (s : String) : String := String.mk (s.data.map Char.toLower)

/-- `String(cmdName).toLowerCase().startsWith('set')` (src/app.js:4204). -/
def startsWithSet (s : String) : Bool := leadMatch "set".data (strToLower s).data

/-- A device record as held in `connectedDevices` / `availableDevices`
(src/app.js, `scanDevices`): id, display name, role and command list. -/
structure DeviceInfo where
  id : String
  name : String
  type : String
  commands : List String
deriving DecidableEq, Repr

/-- Name heuristic from `computeMode2TargetKW` / `getConnectedGeneratorDevices`
(src/app.js:230,254): case-insensitive substring match of "generator". -/
def isGenerator (d : DeviceInfo) : Bool := strIncludes (strToLower d.name) "generator"

/-- Per-device-name manual power estimate record, as persisted by
`savePowerEst` and read by `loadPowerEst` (src/app.js).  Absent fields are
`none`; a stored value whose `Number(...)` conversion is non-finite is
`some JNum.nonfinite`. -/
structure PowerEst where
  ratedW : Option JNum := none
  utilization : Option JNum := none
  capacityKW : Option JNum := none
  availability : Option JNum := none

/-- Embeds `clamp01(v)` (src/app.js:1411): non-finite maps to 0, otherwise
clamp into `[0,1]`. -/
def clamp01 (v : JNum) : ℚ :=
  match v with
  | JNum.nonfinite => 0
  | JNum.fin n => max 0 (min 1 n)

/-- JavaScript `x ?? 1` composed with `clamp01`, as in
`clamp01(est.utilization ?? 1)` (src/app.js:1439). -/
def clamp01OrOne (v : Option JNum) : ℚ :=
  match v with
  | none => 1
  | some x => clamp01 x

/-- Embeds `parsePositiveNumber(v)` (src/app.js:1422): null for absent or
non-finite or negative values, otherwise the number itself. -/
def parsePositiveNumber (v : Option JNum) : Option ℚ :=
  match v with
  | none => none
  | some JNum.nonfinite => none
  | some (JNum.fin n) => if n < 0 then none else some n

/-- Result record of `computeEstimatedKW`: the kW value (null when no source
yields one) and its source tag. -/
structure EstResult where
  kw : Option ℚ
  source : String
deriving DecidableEq, Repr

/-- The part of `computeEstimatedKW` after the prefer-manual block
(src/app.js:1449-1468): telemetry first when present and finite, then the
manual estimate, else `{null, none}`. -/
def estimateDefault (est : PowerEst) (dev : Option DeviceInfo)
    (metricKW : Option JNum) : EstResult :=
  match metricKW with
  | some (JNum.fin m) => ⟨some m, "telemetry"⟩
  | _ =>
    match dev with
    | some d =>
      if d.type = "consumer" then
        match parsePositiveNumber est.ratedW with
        | none => ⟨none, "none"⟩
        | some r => ⟨some (r * clamp01OrOne est.utilization / 1000), "estimate"⟩
      else if d.type = "provider" then
        match parsePositiveNumber est.capacityKW with
        | none => ⟨none, "none"⟩
        | some c => ⟨some (c * clamp01OrOne est.availability), "estimate"⟩
      else ⟨none, "none"⟩
    | none => ⟨none, "none"⟩

/-- Embeds `computeEstimatedKW(deviceInfo, metric)` (src/app.js:1431).
`estOf` models the persisted per-device-name estimate store
(`loadPowerEst(name) || {}`), `preferManual` the prefer-manual-estimates
flag, and `metricKW` the telemetry sample's `kw` field (absent metric is
`none`). -/
def computeEstimatedKW (preferManual : Bool) (estOf : String → PowerEst)
    (dev : Option DeviceInfo) (metricKW : Option JNum) : EstResult :=
  let name := match dev with | some d => d.name | none => ""
  let est := estOf name
  if preferManual && dev.isSome then
    match dev with
    | some d =>
      if d.type = "consumer" then
        match parsePositiveNumber est.ratedW with
        | some r => ⟨some (r * clamp01OrOne est.utilization / 1000), "estimate"⟩
        | none =>
          if d.type = "provider" then
            match parsePositiveNumber est.capacityKW with
            | some c => ⟨some (c * clamp01OrOne est.availability), "estimate"⟩
            | none => estimateDefault est dev metricKW
          else estimateDefault est dev metricKW
      else if d.type = "provider" then
        match parsePositiveNumber est.capacityKW with
        | some c => ⟨some (c * clamp01OrOne est.availability), "estimate"⟩
        | none => estimateDefault est dev metricKW
      else estimateDefault est dev metricKW
    | none => estimateDefault est dev metricKW
  else estimateDefault est dev metricKW

/-- `Math.round(x * 100) / 100` (src/app.js:310,460): JavaScript `Math.round`
rounds half toward positive infinity, i.e. `⌊x + 1/2⌋`. -/
def round2 (q : ℚ) : ℚ := (Int.floor (q * 100 + 1 / 2) : ℚ) / 100

/-- The slice of application state read by the Mode 2 balance computation
(src/app.js): connection edges, connected and available device maps (as
lists in iteration order), the prefer-manual flag, the estimate store, the
safe-mode flag and the last applied `(genId, targetKW)` record. -/
structure Mode2State where
  connections : List Conn
  connected : List DeviceInfo
  available : List DeviceInfo
  preferManual : Bool
  estOf : String → PowerEst
  safeMode : Bool
  lastApplied : Option (String × ℚ)

/-- Embeds `getConnectedGeneratorDevices()` (src/app.js:230): connected
devices whose lower-cased name contains "generator" and whose command list
contains "setLoad". -/
def getConnectedGeneratorDevices (st : Mode2State) : List DeviceInfo :=
  st.connected.filter (fun d => isGenerator d && d.commands.contains "setLoad")

/-- Result triple of `computeMode2TargetKW()` (src/app.js:244):
`(demandKW, otherSupplyKW, deficitKW)`. -/
structure Mode2Target where
  demandKW : ℚ
  otherSupplyKW : ℚ
  deficitKW : ℚ
deriving DecidableEq, Repr

/-- Embeds `computeMode2TargetKW()` (src/app.js:244): demand is the
`reduce`-accumulated effective kW of all edges; other supply accumulates the
estimated kW of every provider device (connected then available) that is not
a generator by name, skipping null or non-finite estimates; the deficit is
`max(0, demandKW - otherSupplyKW)`. -/
def computeMode2TargetKW (st : Mode2State) : Mode2Target :=
  let demandKW := st.connections.foldl (fun acc e => acc + getConnectionKW e) 0
  let all := st.connected ++ st.available
  let otherSupplyKW := all.foldl
    (fun acc d =>
      if d.type = "provider" && !isGenerator d then
        match (computeEstimatedKW st.preferManual st.estOf (some d) none).kw with
        | some k => acc + k
        | none => acc
      else acc) 0
  ⟨demandKW, otherSupplyKW, max 0 (demandKW - otherSupplyKW)⟩

/-- Outcome of one `applyConnectionsMode2` run (src/app.js:268), carrying the
computed numbers on every path that computes them. -/
inductive Mode2Result where
  | noGenerator (hasDiagramGen : Bool)
  | safeBlocked (demandKW otherSupplyKW targetRounded : ℚ)
  | suppressed (demandKW otherSupplyKW targetRounded : ℚ)
  | dispatched (genId : String) (demandKW otherSupplyKW targetRounded : ℚ)
deriving DecidableEq, Repr

/-- Embeds the decision logic of `applyConnectionsMode2()` (src/app.js:268):
require a connected generator (using the first of several); compute the
target; cap it by the generator's own estimated kW when that is non-null,
finite and nonnegative; round to 2 decimals; under safe mode stop after
computing; suppress the dispatch when the last applied record is for the
same generator and within 0.01 of the new rounded target; otherwise
dispatch `setLoad`.  (The in-flight guard and UI reporting are not part of
the decision and are omitted.) -/
def applyConnectionsMode2 (st : Mode2State) : Mode2Result :=
  match getConnectedGeneratorDevices st with
  | [] => Mode2Result.noGenerator ((st.connected ++ st.available).any isGenerator)
  | gen :: _ =>
    let t := computeMode2TargetKW st
    let maxKW : Option ℚ :=
      match (computeEstimatedKW st.preferManual st.estOf (some gen) none).kw with
      | some k => if 0 ≤ k then some k else none
      | none => none
    let targetKW := match maxKW with
      | none => t.deficitKW
      | some m => min t.deficitKW m
    let targetRounded := round2 targetKW
    let isSameTarget := match st.lastApplied with
      | some (gid, last) => gid = gen.id && |last - targetRounded| < 1 / 100
      | none => false
    if st.safeMode then Mode2Result.safeBlocked t.demandKW t.otherSupplyKW targetRounded
    else if isSameTarget then Mode2Result.suppressed t.demandKW t.otherSupplyKW targetRounded
    else Mode2Result.dispatched gen.id t.demandKW t.otherSupplyKW targetRounded

/-- The new `_connMode2LastApplied` record after a run: updated only on a
dispatch (src/app.js:334). -/
def mode2NextLastApplied (st : Mode2State) : Option (String × ℚ) :=
  match applyConnectionsMode2 st with
  | Mode2Result.dispatched genId _ _ target => some (genId, target)
  | _ => st.lastApplied

/-- Demand-inference state (`autoEst*` fields, src/app.js): enabled flag,
previous inferred demand, last supply, and the tuning values as stored. -/
structure AutoEstState where
  enabled : Bool
  demandKW : Option JNum
  lastSupplyKW : Option JNum
  alpha : Option JNum
  maxStepKW : Option JNum

/-- `(typeof v === 'number' && Number.isFinite(v)) ? v : 0` as used for the
manual demand in `inferDemandKW` (src/app.js:1344). -/
def jnumOrZero (m : Option JNum) : ℚ :=
  match m with
  | some (JNum.fin q) => q
  | _ => 0

/-- The effective max step of `inferDemandKW` (src/app.js:1355-1357):
`Math.max(0.1, autoEstMaxStepKW)` when that is a finite number, else 1.0. -/
def stepStored (v : Option JNum) : ℚ :=
  match v with
  | some (JNum.fin ms) => max (1 / 10) ms
  | _ => 1

/-- The effective smoothing factor of `inferDemandKW` (src/app.js:1360-1362):
`autoEstAlpha` clamped into `[0.05, 0.95]` when finite, else 0.35. -/
def alphaStored (v : Option JNum) : ℚ :=
  match v with
  | some (JNum.fin al) => max (1 / 20) (min (19 / 20) al)
  | _ => 7 / 20

/-- The smoothing update of `inferDemandKW` for a finite previous value
(src/app.js:1354-1366): bound the move toward the raw target by the max
step, then mix the bounded target and the previous value with alpha. -/
def inferStep (prev rawTarget : ℚ) (alpha maxStepKW : Option JNum) : ℚ :=
  let maxStep := stepStored maxStepKW
  let bounded := prev + max (-maxStep) (min maxStep (rawTarget - prev))
  let a := alphaStored alpha
  a * bounded + (1 - a) * prev

/-- Embeds `inferDemandKW(totalSupplyKW, manualDemandKW)` (src/app.js:1337):
returns the inferred demand (null when disabled or the supply is absent,
non-finite or ≤ 0) together with the updated state.  With a finite previous
value the raw target `max(max(0, manual), supply)` is step-limited to
`±max(0.1, maxStepKW)` from the previous value and then smoothed with
`alpha` clamped into `[0.05, 0.95]`; without one the raw target is adopted
directly. -/
def inferDemandKW (st : AutoEstState) (totalSupplyKW manualDemandKW : Option JNum) :
    Option ℚ × AutoEstState :=
  if !st.enabled then (none, st)
  else
    match totalSupplyKW with
    | some (JNum.fin s) =>
      if s ≤ 0 then (none, st)
      else
        let rawTarget := max (max 0 (jnumOrZero manualDemandKW)) s
        match st.demandKW with
        | some (JNum.fin prev) =>
          let nw := inferStep prev rawTarget st.alpha st.maxStepKW
          (some nw,
           { st with demandKW := some (JNum.fin nw), lastSupplyKW := some (JNum.fin s) })
        | _ =>
          (some rawTarget,
           { st with demandKW := some (JNum.fin rawTarget),
                     lastSupplyKW := some (JNum.fin s) })
    | _ => (none, st)

/-- Character class `[a-zA-Z_]` of the identifier in `parseCommand`
(src/unnamed/part_000:10). -/
def isIdentChar (c : Char) : Bool := c.isUpper || c.isLower || c = '_'

/-- Character class `[A-Za-z0-9_]` of the continuation characters in the
identifier of `parseFirmwareCommands` (src/app.js:131). -/
def isWordChar (c : Char) : Bool := c.isUpper || c.isLower || c.isDigit || c = '_'

/-- Value of a decimal digit run, as `parseInt` reads the regex group `\d+`. -/
def digitsToNat (ds : List Char) : Nat :=
  ds.foldl (fun acc c => acc * 10 + (c.toNat - 48)) 0

/-- Matches the optional regex group `(?:mark(\d+))?`: a marker character
followed by at least one digit.  On success returns the digits' value and
the remaining characters; otherwise the group is skipped. -/
def tryArity (mark : Char) (l : List Char) : Option (Nat × List Char) :=
  match l with
  | [] => none
  | c :: r =>
    if c = mark then
      let ds := r.takeWhile Char.isDigit
      if ds.isEmpty then none
      else some (digitsToNat ds, r.drop ds.length)
    else none

/-- Parse result of `parseCommand` (src/unnamed/part_000:9). -/
structure ParsedCmd where
  command : String
  numOfOutput : Nat
  numOfInput : Nat
deriving DecidableEq, Repr

/-- Embeds `parseCommand(cmdName)` (src/unnamed/part_000:9), i.e. the regex
`^([a-zA-Z_]+)(?:>(\d+))?(?:<(\d+))?`: a nonempty run of letters or
underscores, then optionally `>` with digits, then optionally `<` with
digits; when the identifier is empty the whole line is returned with both
arities 0. -/
def parseCommand (cmdName : String) : ParsedCmd :=
  let ident := cmdName.data.takeWhile isIdentChar
  if ident.isEmpty then ⟨cmdName, 0, 0⟩
  else
    let rest := cmdName.data.drop ident.length
    let s1 := match tryArity '>' rest with
      | some (n, r) => (n, r)
      | none => (0, rest)
    let nIn := match tryArity '<' s1.2 with
      | some (n, _) => n
      | none => 0
    ⟨String.mk ident, s1.1, nIn⟩

/-- The base-name extraction of `parseFirmwareCommands` (src/app.js:131),
i.e. the regex `^([A-Za-z_][A-Za-z0-9_]*)`; on no match the whole line is
the base. -/
def firmwareBase (line : String) : String :=
  match line.data with
  | [] => line
  | c :: rest =>
    if isIdentChar c then String.mk (c :: rest.takeWhile isWordChar)
    else line

/-- Embeds the read/echo loop of `BaseDevice.getCommands`
(src/unnamed/part_000:138): `cur` is the line just read, `inbound` the lines
the device will still produce (an exhausted list models reads that time out
and return the empty string), `collected` the number of lines recorded so
far, `blanks` the current consecutive-blank-read streak.  Returns the
recorded signature lines and the lines echoed back on the transport, in
order.  A blank read increments the streak and stops at 50; the sentinel
`eoc` stops; any other line is recorded, echoed back verbatim, and the next
line is read. -/
def gcLoop (cur : String) (inbound : List String) (collected blanks : Nat) :
    List String × List String :=
  if 128 ≤ collected then ([], [])
  else if cur = "" then
    if 50 ≤ blanks + 1 then ([], [])
    else
      match inbound with
      | [] => ([], [])
      | l :: rest => gcLoop l rest collected (blanks + 1)
  else if cur = "eoc" then ([], [])
  else
    match inbound with
    | [] => ([cur], [cur])
    | l :: rest =>
      let p := gcLoop l rest (collected + 1) 0
      (cur :: p.1, cur :: p.2)

/-- `BaseDevice.getCommands` on a device whose responses to the handshake are
`first :: inbound`: the recorded lines and the echoed lines (the initial
"getCommands" request line is not part of the echoes). -/
def getCommands (first : String) (inbound : List String) : List String × List String :=
  gcLoop first inbound 0 0

/-- A command descriptor (`Cmd`, src/unnamed/part_000:262). -/
structure Cmd where
  name : String
  inArg : Nat
  outArg : Nat
deriving DecidableEq, Repr

/-- Embeds `BaseDevice.setupCommands` (src/unnamed/part_000:193): each
non-blank, non-`eoc` raw line is parsed with `parseCommand` and stored in
the catalog under its base name, overwriting an earlier entry. -/
def setupCommands (raw : List String) (init : String → Option Cmd) :
    String → Option Cmd :=
  raw.foldl
    (fun cmds line =>
      if line = "" || line = "eoc" then cmds
      else
        let p := parseCommand line
        fun n => if n = p.command then
            some ⟨p.command, p.numOfInput, p.numOfOutput⟩
          else cmds n)
    init

/-- Transport-side outcome of one device call: lines written, number of
lines read, and the value returned to the caller (`none` models `null`). -/
structure CallResult where
  outLines : List String
  readCount : Nat
  result : Option (List String)
deriving Repr

/-- Embeds `BaseDevice.readCmdMessage` (src/unnamed/part_000:220): unknown
command returns null with no I/O; otherwise the command name is sent as one
line and `inArg + outArg` lines are read and returned.  `inbound` is the
response stream (a missing line reads as the empty string, as a timed-out
`readResponse` does). -/
def readCmdMessage (cmds : String → Option Cmd) (cmdName : String)
    (inbound : Nat → String) : CallResult :=
  match cmds cmdName with
  | none => ⟨[], 0, none⟩
  | some cmd =>
    let count := cmd.inArg + cmd.outArg
    ⟨[cmdName], count, some ((List.range count).map inbound)⟩

/-- Embeds `BaseDevice.call` (src/unnamed/part_000:203): unknown command
returns null with no I/O; a (0,0)-arity command sends only its name; any
other arity delegates to `readCmdMessage`. -/
def callDevice (cmds : String → Option Cmd) (cmdName : String)
    (inbound : Nat → String) : CallResult :=
  match cmds cmdName with
  | none => ⟨[], 0, none⟩
  | some cmd =>
    if cmd.inArg = 0 && cmd.outArg = 0 then ⟨[cmdName], 0, none⟩
    else readCmdMessage cmds cmdName inbound

/-- One command-log entry as written by `addCommandLog` calls inside
`executeCommand` (src/app.js): only the fields the claims are about. -/
structure LogEntry where
  command : String
  args : List String
  error : String
deriving DecidableEq, Repr

/-- Outcome of one `executeCommand` run. -/
structure ExecResult where
  outLines : List String
  readCount : Nat
  result : Option (List String)
  log : Option LogEntry
  blocked : Bool
deriving Repr

/-- Embeds `executeCommand(deviceId, cmdName, options)` (src/app.js:4199) for
a connected device, with an explicit argument list (`options.args`; the
interactive prompt path also produces such a list).  The safe-mode guard
rejects any command whose lower-cased name starts with "set" before any
transport write, logging an entry whose error field carries the block
message.  Otherwise, with a nonempty argument list the command name and
each argument are written as lines and the catalog's declared `outArg`
lines are read back; with an empty list the call is delegated to
`BaseDevice.call`. -/
def executeCommand (safeMode : Bool) (cmds : String → Option Cmd)
    (cmdName : String) (args : List String) (inbound : Nat → String) : ExecResult :=
  if safeMode && startsWithSet cmdName then
    { outLines := []
      readCount := 0
      result := none
      log := some ⟨cmdName, args, "Blocked by Demo/Safe Mode: " ++ cmdName⟩
      blocked := true }
  else if 0 < args.length then
    let outArg := match cmds cmdName with
      | some c => c.outArg
      | none => 0
    { outLines := cmdName :: args
      readCount := outArg
      result := if 0 < outArg then some ((List.range outArg).map inbound) else none
      log := some ⟨cmdName, args, ""⟩
      blocked := false }
  else
    let c := callDevice cmds cmdName inbound
    { outLines := c.outLines
      readCount := c.readCount
      result := c.result
      log := some ⟨cmdName, args, ""⟩
      blocked := false }

/-- A settled JavaScript promise value: fulfilled or rejected. -/
inductive POut where
  | ok : String → POut
  | err : String → POut
deriving DecidableEq, Repr

/-- `p.catch(h)`: a fulfilled promise passes through, a rejected one is
replaced by the handler's result. -/
def pcatch (p : POut) (h : String → POut) : POut :=
  match p with
  | POut.ok v => POut.ok v
  | POut.err e => h e

/-- `p.then(f)`: the continuation runs on fulfillment; a rejection passes
through. -/
def pthen (p : POut) (f : Unit → POut) : POut :=
  match p with
  | POut.ok _ => f ()
  | POut.err e => POut.err e

/-- Embeds the chain step of `enqueueDeviceCommand` (src/app.js:3117):
`prev.catch(() => undefined).then(() => taskFn())`, which is both the value
stored as the device's new queue head and the promise returned to the
caller. -/
def enqueueResult (prev : POut) (task : Unit → POut) : POut :=
  pthen (pcatch prev (fun _ => POut.ok "")) task

/-- A scheduler event: task number `idx` of device `dev` starts or settles. -/
structure Ev where
  dev : String
  idx : Nat
  isStart : Bool
deriving DecidableEq, Repr

/-- The event order produced by one device's promise chain
(src/app.js:3117): `.then` only invokes the next task's body after the
previous chain head has settled, so the per-device trace is
start 0, settle 0, start 1, settle 1, ... . -/
def chainTrace (d : String) (n : Nat) : List Ev :=
  (List.range n).flatMap (fun i => [⟨d, i, true⟩, ⟨d, i, false⟩])

/-- +1 on a start event, -1 on a settle event. -/
def evWeight (e : Ev) : ℤ := if e.isStart then 1 else -1

/-- Number of tasks of device `d` currently running after the events `tr`. -/
def runningCount (d : String) (tr : List Ev) : ℤ :=
  ((tr.filter (fun e => e.dev = d)).map evWeight).sum

/-- `Interleave as bs cs`: `cs` is an interleaving of `as` and `bs`
preserving the order of each.  The cooperative scheduler may interleave the
two devices' chains in any such way. -/
inductive Interleave : List Ev → List Ev → List Ev → Prop where
  | nil : Interleave [] [] []
  | left {a : Ev} {as bs cs : List Ev} :
      Interleave as bs cs → Interleave (a :: as) bs (a :: cs)
  | right {b : Ev} {as bs cs : List Ev} :
      Interleave as bs cs → Interleave as (b :: bs) (b :: cs)

/-- Spec-side formula (from the spec's words, for comparison with the code):
demandKW is the sum of edge kW over all connection edges. -/
def specDemandKW (st : Mode2State) : ℚ := (st.connections.map getConnectionKW).sum

/-- Spec-side formula (from the spec's words, for comparison with the code):
otherSupplyKW is the sum of estimated kW of Provider devices that are not
the generator (name-heuristic exclusion); a null estimate contributes 0. -/
def specOtherSupplyKW (st : Mode2State) : ℚ :=
  (((st.connected ++ st.available).filter
      (fun d => d.type = "provider" && !isGenerator d)).map
    (fun d => ((computeEstimatedKW st.preferManual st.estOf (some d) none).kw).getD 0)).sum

/-- Spec-side formula (from the spec's words, for comparison with the code):
the rounded Mode 2 target is `min(deficitKW, cap)` when a nonnegative
generator capacity estimate `cap` exists and `deficitKW` otherwise, rounded
to 2 decimals, with `deficitKW = max(0, demandKW - otherSupplyKW)`. -/
def specMode2TargetRounded (st : Mode2State) (gen : DeviceInfo) : ℚ :=
  let deficit := max 0 (specDemandKW st - specOtherSupplyKW st)
  match (computeEstimatedKW st.preferManual st.estOf (some gen) none).kw with
  | some cap => if 0 ≤ cap then round2 (min deficit cap) else round2 deficit
  | none => round2 deficit

/-- Spec-side suppression condition (from the spec's words): the dispatch is
suppressed when the last applied record is for the same generator id and
within 0.01 of the new rounded target. -/
def specSuppress (st : Mode2State) (gen : DeviceInfo) : Bool :=
  match st.lastApplied with
  | some (gid, last) => gid = gen.id && |last - specMode2TargetRounded st gen| < 1 / 100
  | none => false

/-- Example generator device: connected, supports setLoad. -/
def genDev : DeviceInfo := ⟨"g1", "Generator", "provider", ["setLoad"]⟩

/-- Example non-generator provider. -/
def solarDev : DeviceInfo := ⟨"s1", "Solar Panel", "provider", []⟩

/-- Example consumer. -/
def houseDev : DeviceInfo := ⟨"h1", "House", "consumer", []⟩

/-- Estimate store giving the solar provider 4 kW and the generator no
capacity estimate. -/
def estStoreA : String → PowerEst := fun n =>
  if n = "Solar Panel" then { capacityKW := some (JNum.fin 4) } else {}

/-- Estimate store giving the solar provider 4 kW and the generator a 3 kW
capacity estimate. -/
def estStoreB : String → PowerEst := fun n =>
  if n = "Solar Panel" then { capacityKW := some (JNum.fin 4) }
  else if n = "Generator" then { capacityKW := some (JNum.fin 3) }
  else {}

/-- Mode 2 example state: one 10 kW edge, 4 kW of other supply, no generator
capacity estimate, nothing applied yet. -/
def stateA : Mode2State :=
  { connections := [⟨"g1", "h1", some (JNum.fin 10)⟩]
    connected := [genDev]
    available := [solarDev, houseDev]
    preferManual := false
    estOf := estStoreA
    safeMode := false
    lastApplied := none }

/-- `stateA` with a 3 kW generator capacity estimate. -/
def stateB : Mode2State := { stateA with estOf := estStoreB }

/-- `stateA` immediately after its dispatch was applied (last applied record
`("g1", 6)`). -/
def stateARepeat : Mode2State := { stateA with lastApplied := some ("g1", 6) }

/-- Demand-inference example state: enabled, previous value 5, alpha 0.35,
max step 1 kW. -/
def autoStateEx : AutoEstState :=
  { enabled := true
    demandKW := some (JNum.fin 5)
    lastSupplyKW := none
    alpha := some (JNum.fin (7 / 20))
    maxStepKW := some (JNum.fin 1) }

/-- The validity test of `normalizeConnections` on one edge: both endpoints
non-blank and present in the device id set. -/
def validEdge (ids : List String) (e : Conn) : Bool :=
  decide (¬ (e.fromId = "" ∨ e.toId = "") ∧ e.fromId ∈ ids ∧ e.toId ∈ ids)

/-- Spec-side de-duplication (from the spec's words, for comparison with the
code): keep the first edge of each ordered `(fromId, toId)` pair. -/
def dedupPairAux : List Conn → List (String × String) → List Conn
  | [], _ => []
  | e :: rest, seen =>
    if (e.fromId, e.toId) ∈ seen then dedupPairAux rest seen
    else e :: dedupPairAux rest ((e.fromId, e.toId) :: seen)

/-- Spec-side normalization (from the spec's words): filter to valid edges,
normalize kw, and keep the first occurrence of each ordered pair. -/
def specNormalize (ids : List String) (conns : List Conn) : List Conn :=
  dedupPairAux ((conns.filter (validEdge ids)).map
    (fun e => ⟨e.fromId, e.toId, normKW e.kw⟩)) []

/-- Device id set of the normalization counterexample: ids containing the
dedup separator `=>`. -/
def ids8 : List String := ["dev:a", "dev:b=>dev:c", "dev:a=>dev:b", "dev:c"]

/-- Counterexample edge 1: pair `("dev:a", "dev:b=>dev:c")`. -/
def e8a : Conn := ⟨"dev:a", "dev:b=>dev:c", none⟩

/-- Counterexample edge 2: pair `("dev:a=>dev:b", "dev:c")`, colliding with
edge 1's dedup key. -/
def e8b : Conn := ⟨"dev:a=>dev:b", "dev:c", some (JNum.fin 1)⟩

/-- Counterexample edge 3: a duplicate of edge 2's pair. -/
def e8c : Conn := ⟨"dev:a=>dev:b", "dev:c", some (JNum.fin 2)⟩

/-! ## Helper lemmas -/

theorem getConnectionKW_nonneg (e : Conn) : 0 ≤ getConnectionKW e := by
  rcases e with ⟨f, t, kw⟩
  rcases kw with _ | j
  · simp [getConnectionKW]
  · rcases j with _ | q
    · simp [getConnectionKW]
    · by_cases h : 0 ≤ q <;> simp [getConnectionKW, h]

theorem demand_foldl_eq (conns : List Conn) :
    ∀ acc : ℚ, conns.foldl (fun a e => a + getConnectionKW e) acc
      = acc + (conns.map getConnectionKW).sum := by
  induction conns with
  | nil => intro acc; simp
  | cons e rest ih =>
    intro acc
    simp only [List.foldl_cons, List.map_cons, List.sum_cons, ih]
    ring

theorem otherSupply_foldl_eq (pm : Bool) (estOf : String → PowerEst)
    (l : List DeviceInfo) :
    ∀ acc : ℚ,
      l.foldl (fun acc d =>
        if d.type = "provider" && !isGenerator d then
          match (computeEstimatedKW pm estOf (some d) none).kw with
          | some k => acc + k
          | none => acc
        else acc) acc
      = acc + ((l.filter (fun d => d.type = "provider" && !isGenerator d)).map
          (fun d => ((computeEstimatedKW pm estOf (some d) none).kw).getD 0)).sum := by
  induction l with
  | nil => intro acc; simp
  | cons d rest ih =>
    intro acc
    by_cases h : (d.type = "provider" && !isGenerator d) = true
    · rcases hk : (computeEstimatedKW pm estOf (some d) none).kw with _ | k
      · simp only [List.foldl_cons, List.filter_cons, h, hk, if_true, List.map_cons,
          List.sum_cons, ih, Option.getD_none]
        ring
      · simp only [List.foldl_cons, List.filter_cons, h, hk, if_true, List.map_cons,
          List.sum_cons, ih, Option.getD_some]
        ring
    · rw [List.foldl_cons, List.filter_cons, if_neg h, if_neg h, ih]

theorem computeMode2TargetKW_eq (st : Mode2State) :
    computeMode2TargetKW st =
      ⟨specDemandKW st, specOtherSupplyKW st,
       max 0 (specDemandKW st - specOtherSupplyKW st)⟩ := by
  simp only [computeMode2TargetKW, specDemandKW, specOtherSupplyKW]
  rw [demand_foldl_eq, otherSupply_foldl_eq]
  simp

theorem connTotals_foldl_nonneg (conns : List Conn) :
    ∀ acc : (String → ℚ) × (String → ℚ),
      (∀ id, 0 ≤ acc.1 id) → (∀ id, 0 ≤ acc.2 id) →
      ∀ id,
        0 ≤ (conns.foldl connTotalsStep acc).1 id ∧
        0 ≤ (conns.foldl connTotalsStep acc).2 id := by
  induction conns with
  | nil => intro acc h1 h2 id; exact ⟨h1 id, h2 id⟩
  | cons e rest ih =>
    intro acc h1 h2 id
    rw [List.foldl_cons]
    refine ih _ ?_ ?_ id
    · intro j
      simp only [connTotalsStep]
      by_cases hj : j = e.fromId <;> simp only [hj, if_true, reduceIte]
      · exact add_nonneg (h1 _) (getConnectionKW_nonneg e)
      · exact h1 _
    · intro j
      simp only [connTotalsStep]
      by_cases hj : j = e.toId <;> simp only [hj, if_true, reduceIte]
      · exact add_nonneg (h2 _) (getConnectionKW_nonneg e)
      · exact h2 _

/-! ## Claim theorems -/

/-- C10: the effective kW of every connection edge
(`getConnectionKW`) is nonnegative — an edge whose stored kw is null,
non-finite or negative contributes exactly 0, and a finite stored kw
contributes itself only when nonnegative — so the per-device totals of
`computeConnTotals` and the Mode 2 demand are nonnegative (and, being
rationals built from finite contributions, finite). -/
theorem c10_effective_kw_nonneg :
    (∀ e : Conn, 0 ≤ getConnectionKW e) ∧
    (∀ f t, getConnectionKW ⟨f, t, none⟩ = 0) ∧
    (∀ f t, getConnectionKW ⟨f, t, some JNum.nonfinite⟩ = 0) ∧
    (∀ f t q, getConnectionKW ⟨f, t, some (JNum.fin q)⟩ = if 0 ≤ q then q else 0) ∧
    (∀ conns id, 0 ≤ (computeConnTotals conns).1 id ∧
                 0 ≤ (computeConnTotals conns).2 id) ∧
    (∀ st : Mode2State, 0 ≤ (computeMode2TargetKW st).demandKW) := by
  refine ⟨getConnectionKW_nonneg, fun f t => rfl, fun f t => rfl,
    fun f t q => rfl, ?_, ?_⟩
  · intro conns id
    exact connTotals_foldl_nonneg conns _ (fun _ => le_refl 0) (fun _ => le_refl 0) id
  · intro st
    rw [computeMode2TargetKW_eq]
    exact List.sum_nonneg (by
      intro x hx
      rcases List.mem_map.mp hx with ⟨e, _, rfl⟩
      exact getConnectionKW_nonneg e)

/-- C7: the sanitizer maps a voltage strictly below 0 or strictly above 1000
to null and a power of absolute value strictly above 1000 to null; the
boundary voltages 0 and 1000 and powers of absolute value exactly 1000 are
accepted unchanged; null or non-finite inputs yield null. -/
theorem c7_sanitizer_bounds :
    (∀ v : ℚ, sanitizeMetricNumber "volts" (some (JNum.fin v)) =
      if v < 0 ∨ 1000 < v then none else some v) ∧
    (∀ p : ℚ, sanitizeMetricNumber "kw" (some (JNum.fin p)) =
      if 1000 < |p| then none else some p) ∧
    sanitizeMetricNumber "volts" (some (JNum.fin 0)) = some 0 ∧
    sanitizeMetricNumber "volts" (some (JNum.fin 1000)) = some 1000 ∧
    sanitizeMetricNumber "kw" (some (JNum.fin 1000)) = some 1000 ∧
    sanitizeMetricNumber "kw" (some (JNum.fin (-1000))) = some (-1000) ∧
    (∀ f : String, sanitizeMetricNumber f (some JNum.nonfinite) = none) ∧
    (∀ f : String, sanitizeMetricNumber f none = none) := by
  refine ⟨?_, ?_, by decide, by decide, by decide, by decide,
    fun f => rfl, fun f => rfl⟩
  · intro v
    simp only [sanitizeMetricNumber]
    norm_num
    split_ifs with h1 h2 h3 h4 <;> first | rfl | tauto
  · intro p
    simp only [sanitizeMetricNumber]
    norm_num
    split_ifs with h1 h2 <;> first | rfl | tauto

/-- C9: invoking a command name that is not in the device's registered
catalog fails locally in `BaseDevice.call`: no line is written, no line is
read, and null is returned to the caller immediately. -/
theorem c9_unknown_command_local (cmds : String → Option Cmd) (cmdName : String)
    (inbound : Nat → String) (h : cmds cmdName = none) :
    (callDevice cmds cmdName inbound).outLines = [] ∧
    (callDevice cmds cmdName inbound).readCount = 0 ∧
    (callDevice cmds cmdName inbound).result = none := by
  simp [callDevice, h]

/-- Witness for C9 at a concrete empty catalog and command name. -/
theorem c9_unknown_command_local_witness :
    ((fun _ : String => (none : Option Cmd)) "getKW" = none) ∧
    ((callDevice (fun _ => none) "getKW" (fun _ => "")).outLines = [] ∧
     (callDevice (fun _ => none) "getKW" (fun _ => "")).readCount = 0 ∧
     (callDevice (fun _ => none) "getKW" (fun _ => "")).result = none) :=
  ⟨rfl, c9_unknown_command_local (fun _ => none) "getKW" (fun _ => "") rfl⟩

/-- C4: with the safety flag enabled, every command whose name
case-insensitively starts with "set" is rejected before any outbound line is
written (no transport write, no read, call marked blocked), and the
rejection is logged with a populated error field. -/
theorem c4_safe_mode_blocks (cmds : String → Option Cmd) (cmdName : String)
    (args : List String) (inbound : Nat → String)
    (h : startsWithSet cmdName = true) :
    (executeCommand true cmds cmdName args inbound).outLines = [] ∧
    (executeCommand true cmds cmdName args inbound).readCount = 0 ∧
    (executeCommand true cmds cmdName args inbound).blocked = true ∧
    ∃ entry, (executeCommand true cmds cmdName args inbound).log = some entry ∧
      entry.error ≠ "" := by
  refine ⟨by simp [executeCommand, h], by simp [executeCommand, h],
    by simp [executeCommand, h],
    ⟨⟨cmdName, args, "Blocked by Demo/Safe Mode: " ++ cmdName⟩,
     by simp [executeCommand, h], ?_⟩⟩
  intro hc
  have hlen := congrArg String.length hc
  rw [String.length_append] at hlen
  have h27 : ("Blocked by Demo/Safe Mode: " : String).length = 27 := rfl
  have h0 : ("" : String).length = 0 := rfl
  omega

/-- Witness for C4 at the concrete command name `setX`. -/
theorem c4_safe_mode_blocks_witness :
    (startsWithSet "setX" = true) ∧
    ((executeCommand true (fun _ => none) "setX" [] (fun _ => "")).outLines = [] ∧
     (executeCommand true (fun _ => none) "setX" [] (fun _ => "")).readCount = 0 ∧
     (executeCommand true (fun _ => none) "setX" [] (fun _ => "")).blocked = true ∧
     ∃ entry, (executeCommand true (fun _ => none) "setX" [] (fun _ => "")).log =
         some entry ∧ entry.error ≠ "") :=
  ⟨by decide, c4_safe_mode_blocks (fun _ => none) "setX" [] (fun _ => "") (by decide)⟩

/-- C2: invoking a registered command of declared input arity 1 and output
arity 1 through `executeCommand` with its one argument writes exactly 2
outbound lines (the command name, then the argument) and reads exactly 1
inbound line, returned as a 1-element list. -/
theorem c2_one_one_arity (cmds : String → Option Cmd) (cmdName a : String)
    (inbound : Nat → String) (c : Cmd)
    (hc : cmds cmdName = some c) (_hin : c.inArg = 1) (hout : c.outArg = 1) :
    (executeCommand false cmds cmdName [a] inbound).outLines = [cmdName, a] ∧
    (executeCommand false cmds cmdName [a] inbound).outLines.length = 2 ∧
    (executeCommand false cmds cmdName [a] inbound).readCount = 1 ∧
    (executeCommand false cmds cmdName [a] inbound).result = some [inbound 0] := by
  refine ⟨?_, ?_, ?_, ?_⟩ <;>
    simp [executeCommand, hc, hout, List.range_succ, List.range_zero]

/-- Witness for C2 at a concrete (1,1)-arity catalog entry. -/
theorem c2_one_one_arity_witness :
    ((fun n => if n = "EPr" then some (⟨"EPr", 1, 1⟩ : Cmd) else none) "EPr" =
       some (⟨"EPr", 1, 1⟩ : Cmd)) ∧
    ((⟨"EPr", 1, 1⟩ : Cmd).inArg = 1) ∧ ((⟨"EPr", 1, 1⟩ : Cmd).outArg = 1) ∧
    ((executeCommand false (fun n => if n = "EPr" then some (⟨"EPr", 1, 1⟩ : Cmd) else none)
        "EPr" ["5"] (fun _ => "7")).outLines = ["EPr", "5"] ∧
     (executeCommand false (fun n => if n = "EPr" then some (⟨"EPr", 1, 1⟩ : Cmd) else none)
        "EPr" ["5"] (fun _ => "7")).outLines.length = 2 ∧
     (executeCommand false (fun n => if n = "EPr" then some (⟨"EPr", 1, 1⟩ : Cmd) else none)
        "EPr" ["5"] (fun _ => "7")).readCount = 1 ∧
     (executeCommand false (fun n => if n = "EPr" then some (⟨"EPr", 1, 1⟩ : Cmd) else none)
        "EPr" ["5"] (fun _ => "7")).result = some ["7"]) :=
  ⟨rfl, rfl, rfl,
   c2_one_one_arity (fun n => if n = "EPr" then some ⟨"EPr", 1, 1⟩ else none)
     "EPr" "5" (fun _ => "7") ⟨"EPr", 1, 1⟩ rfl rfl rfl⟩

/-- C6: with inference enabled and a finite previous value present, one
inference step takes the target `max(max(0, manualDemand), totalSupply)`,
limits the move from the previous value to at most the effective max step in
either direction, and exponentially smooths toward that bounded target with
the clamped factor alpha; in particular alpha 0.35, max step 1, previous 5
and supply 10 give 5.35 (= 107/20). -/
theorem c6_inference_step (st : AutoEstState) (supply prev : ℚ)
    (manualOpt : Option JNum)
    (hen : st.enabled = true) (hprev : st.demandKW = some (JNum.fin prev))
    (hsup : 0 < supply) :
    ((inferDemandKW st (some (JNum.fin supply)) manualOpt).1 =
      some (alphaStored st.alpha *
              (prev + max (-(stepStored st.maxStepKW))
                (min (stepStored st.maxStepKW)
                  (max (max 0 (jnumOrZero manualOpt)) supply - prev))) +
            (1 - alphaStored st.alpha) * prev) ∧
     (inferDemandKW st (some (JNum.fin supply)) manualOpt).2.demandKW =
      some (JNum.fin (alphaStored st.alpha *
              (prev + max (-(stepStored st.maxStepKW))
                (min (stepStored st.maxStepKW)
                  (max (max 0 (jnumOrZero manualOpt)) supply - prev))) +
            (1 - alphaStored st.alpha) * prev))) ∧
    (inferDemandKW autoStateEx (some (JNum.fin 10)) none).1 = some (107 / 20) := by
  have hns : ¬ (supply ≤ 0) := not_le.mpr hsup
  refine ⟨⟨?_, ?_⟩, ?_⟩
  · simp [inferDemandKW, hen, hprev, hns, inferStep]
  · simp [inferDemandKW, hen, hprev, hns, inferStep]
  · simp only [inferDemandKW, autoStateEx, inferStep, stepStored, alphaStored, jnumOrZero]
    norm_num [max_def, min_def]

/-- Witness for C6 at the concrete state (alpha 0.35, max step 1,
previous 5) and supply 10. -/
theorem c6_inference_step_witness :
    (inferDemandKW autoStateEx (some (JNum.fin 10)) none).1 = some (107 / 20) :=
  (c6_inference_step autoStateEx 10 5 none rfl rfl (by norm_num)).2

theorem hasSub_cons_false {pat : List Char} {b : Char} {bs : List Char}
    (h : hasSub pat (b :: bs) = false) :
    leadMatch pat (b :: bs) = false ∧ hasSub pat bs = false := by
  rw [hasSub] at h
  exact Bool.or_eq_false_iff.mp h

theorem sep_split_unique :
    ∀ (f1 f2 t1 t2 : List Char),
      hasSub ['=', '>'] f1 = false → hasSub ['=', '>'] f2 = false →
      f1 ++ '=' :: '>' :: t1 = f2 ++ '=' :: '>' :: t2 → f1 = f2 ∧ t1 = t2 := by
  intro f1
  induction f1 with
  | nil =>
    intro f2 t1 t2 _ h2 heq
    cases f2 with
    | nil => simpa using heq
    | cons c f2' =>
      simp only [List.nil_append, List.cons_append, List.cons.injEq] at heq
      obtain ⟨rfl, heq2⟩ := heq
      cases f2' with
      | nil => simp at heq2
      | cons c2 f2'' =>
        simp only [List.cons_append, List.cons.injEq] at heq2
        obtain ⟨rfl, _⟩ := heq2
        simp [hasSub, leadMatch] at h2
  | cons a f1' ih =>
    intro f2 t1 t2 h1 h2 heq
    cases f2 with
    | nil =>
      simp only [List.nil_append, List.cons_append, List.cons.injEq] at heq
      obtain ⟨rfl, heq2⟩ := heq
      cases f1' with
      | nil => simp at heq2
      | cons b f1'' =>
        simp only [List.cons_append, List.cons.injEq] at heq2
        obtain ⟨rfl, _⟩ := heq2
        simp [hasSub, leadMatch] at h1
    | cons b f2' =>
      simp only [List.cons_append, List.cons.injEq] at heq
      obtain ⟨rfl, heq2⟩ := heq
      obtain ⟨hf, ht⟩ := ih f2' t1 t2 (hasSub_cons_false h1).2 (hasSub_cons_false h2).2 heq2
      exact ⟨by rw [hf], ht⟩

theorem connKey_inj {f1 t1 f2 t2 : String}
    (hf1 : hasSub ['=', '>'] f1.data = false)
    (hf2 : hasSub ['=', '>'] f2.data = false)
    (h : connKey f1 t1 = connKey f2 t2) : f1 = f2 ∧ t1 = t2 := by
  have hd : f1.data ++ '=' :: '>' :: t1.data = f2.data ++ '=' :: '>' :: t2.data := by
    have hdd := congrArg String.data h
    simpa [connKey, String.data_append] using hdd
  obtain ⟨hf, ht⟩ := sep_split_unique f1.data f2.data t1.data t2.data hf1 hf2 hd
  constructor
  · cases f1; cases f2; exact congrArg String.mk hf
  · cases t1; cases t2; exact congrArg String.mk ht

theorem normalizeAux_cons_skip_blank (ids : List String) (c : Conn)
    (rest : List Conn) (seen : List String) (h1 : c.fromId = "" ∨ c.toId = "") :
    normalizeAux ids (c :: rest) seen = normalizeAux ids rest seen := by
  simp [normalizeAux, h1]

theorem normalizeAux_cons_skip_absent (ids : List String) (c : Conn)
    (rest : List Conn) (seen : List String) (h1 : ¬ (c.fromId = "" ∨ c.toId = ""))
    (h2 : ¬ (c.fromId ∈ ids ∧ c.toId ∈ ids)) :
    normalizeAux ids (c :: rest) seen = normalizeAux ids rest seen := by
  simp [normalizeAux, h1, h2]

theorem normalizeAux_cons_skip_seen (ids : List String) (c : Conn)
    (rest : List Conn) (seen : List String) (h1 : ¬ (c.fromId = "" ∨ c.toId = ""))
    (h2 : c.fromId ∈ ids ∧ c.toId ∈ ids)
    (h3 : connKey c.fromId c.toId ∈ seen) :
    normalizeAux ids (c :: rest) seen = normalizeAux ids rest seen := by
  simp [normalizeAux, h1, h2, h3]

theorem normalizeAux_cons_keep (ids : List String) (c : Conn)
    (rest : List Conn) (seen : List String) (h1 : ¬ (c.fromId = "" ∨ c.toId = ""))
    (h2 : c.fromId ∈ ids ∧ c.toId ∈ ids)
    (h3 : connKey c.fromId c.toId ∉ seen) :
    normalizeAux ids (c :: rest) seen =
      ⟨c.fromId, c.toId, normKW c.kw⟩ ::
        normalizeAux ids rest (connKey c.fromId c.toId :: seen) := by
  simp [normalizeAux, h1, h2, h3]

theorem normalizeAux_endpoints (ids : List String) :
    ∀ (conns : List Conn) (seen : List String) (e : Conn),
      e ∈ normalizeAux ids conns seen → e.fromId ∈ ids ∧ e.toId ∈ ids := by
  intro conns
  induction conns with
  | nil => intro seen e h; simp [normalizeAux] at h
  | cons c rest ih =>
    intro seen e h
    by_cases h1 : c.fromId = "" ∨ c.toId = ""
    · rw [normalizeAux_cons_skip_blank ids c rest seen h1] at h
      exact ih _ _ h
    · by_cases h2 : c.fromId ∈ ids ∧ c.toId ∈ ids
      · by_cases h3 : connKey c.fromId c.toId ∈ seen
        · rw [normalizeAux_cons_skip_seen ids c rest seen h1 h2 h3] at h
          exact ih _ _ h
        · rw [normalizeAux_cons_keep ids c rest seen h1 h2 h3] at h
          rcases List.mem_cons.mp h with rfl | hmem
          · exact ⟨h2.1, h2.2⟩
          · exact ih _ _ hmem
      · rw [normalizeAux_cons_skip_absent ids c rest seen h1 h2] at h
        exact ih _ _ h

theorem normalizeAux_keys (ids : List String) :
    ∀ (conns : List Conn) (seen : List String),
      (∀ e ∈ normalizeAux ids conns seen, connKey e.fromId e.toId ∉ seen) ∧
      (normalizeAux ids conns seen).Pairwise
        (fun a b => connKey a.fromId a.toId ≠ connKey b.fromId b.toId) := by
  intro conns
  induction conns with
  | nil => intro seen; simp [normalizeAux]
  | cons c rest ih =>
    intro seen
    by_cases h1 : c.fromId = "" ∨ c.toId = ""
    · rw [normalizeAux_cons_skip_blank ids c rest seen h1]
      exact ih seen
    · by_cases h2 : c.fromId ∈ ids ∧ c.toId ∈ ids
      · by_cases h3 : connKey c.fromId c.toId ∈ seen
        · rw [normalizeAux_cons_skip_seen ids c rest seen h1 h2 h3]
          exact ih seen
        · rw [normalizeAux_cons_keep ids c rest seen h1 h2 h3]
          constructor
          · intro e he
            rcases List.mem_cons.mp he with rfl | hmem
            · exact h3
            · have hni := (ih _).1 e hmem
              intro hc
              exact hni (List.mem_cons_of_mem _ hc)
          · refine List.Pairwise.cons ?_ (ih _).2
            intro b hb heq
            have hni := (ih _).1 b hb
            exact hni (by rw [← heq]; exact List.mem_cons_self _ _)
      · rw [normalizeAux_cons_skip_absent ids c rest seen h1 h2]
        exact ih seen

theorem normalizeAux_eq_dedup (ids : List String)
    (hids : ∀ s ∈ ids, hasSub ['=', '>'] s.data = false) :
    ∀ (conns : List Conn) (seenP : List (String × String)),
      (∀ p ∈ seenP, hasSub ['=', '>'] p.1.data = false) →
      normalizeAux ids conns (seenP.map (fun p => connKey p.1 p.2)) =
        dedupPairAux ((conns.filter (validEdge ids)).map
          (fun e => ⟨e.fromId, e.toId, normKW e.kw⟩)) seenP := by
  intro conns
  induction conns with
  | nil => intro seenP hp; simp [normalizeAux, dedupPairAux]
  | cons c rest ih =>
    intro seenP hp
    by_cases h1 : c.fromId = "" ∨ c.toId = ""
    · have hv : validEdge ids c = false := by simp [validEdge, h1]
      rw [normalizeAux_cons_skip_blank ids c rest _ h1, List.filter_cons]
      simp only [hv, Bool.false_eq_true, if_false]
      exact ih seenP hp
    · by_cases h2 : c.fromId ∈ ids ∧ c.toId ∈ ids
      · have hv : validEdge ids c = true := by simp [validEdge, h1, h2.1, h2.2]
        rw [List.filter_cons]
        simp only [hv, if_true, List.map_cons]
        by_cases h3 : connKey c.fromId c.toId ∈ seenP.map (fun p => connKey p.1 p.2)
        · have hmemP : (c.fromId, c.toId) ∈ seenP := by
            rcases List.mem_map.mp h3 with ⟨p, hpmem, hpk⟩
            obtain ⟨hf, ht⟩ := connKey_inj (hp p hpmem) (hids _ h2.1) hpk
            have : p = (c.fromId, c.toId) := Prod.ext hf ht
            rw [← this]; exact hpmem
          rw [normalizeAux_cons_skip_seen ids c rest _ h1 h2 h3, dedupPairAux,
            if_pos hmemP]
          exact ih seenP hp
        · have hmemP : (c.fromId, c.toId) ∉ seenP := by
            intro hc
            exact h3 (List.mem_map.mpr ⟨(c.fromId, c.toId), hc, rfl⟩)
          rw [normalizeAux_cons_keep ids c rest _ h1 h2 h3, dedupPairAux,
            if_neg hmemP]
          refine congrArg _ ?_
          have hrec := ih ((c.fromId, c.toId) :: seenP) (by
            intro p hpmem
            rcases List.mem_cons.mp hpmem with rfl | hpmem'
            · exact hids _ h2.1
            · exact hp p hpmem')
          simpa using hrec
      · have hv : validEdge ids c = false := by
          simp only [validEdge, decide_eq_false_iff_not]
          intro hcontra
          exact h2 ⟨hcontra.2.1, hcontra.2.2⟩
        rw [normalizeAux_cons_skip_absent ids c rest _ h1 h2, List.filter_cons]
        simp only [hv, Bool.false_eq_true, if_false]
        exact ih seenP hp

/-- C8 counterexample: with device ids containing the dedup separator `=>`,
the normalization drops a duplicated ordered pair entirely — even its first
occurrence — because the pair's key collides with a different pair's key.
Edge 2's pair `("dev:a=>dev:b", "dev:c")` occurs twice, both endpoints
exist, yet no edge with that pair survives normalization, contradicting the
claim that the first occurrence of a duplicated pair is kept. -/
theorem c8_normalization_counterexample :
    normalizeConnections ids8 [e8a, e8b, e8c] =
      [⟨"dev:a", "dev:b=>dev:c", none⟩] ∧
    e8b.fromId ∈ ids8 ∧ e8b.toId ∈ ids8 ∧
    e8b.fromId = e8c.fromId ∧ e8b.toId = e8c.toId ∧
    (∀ e ∈ normalizeConnections ids8 [e8a, e8b, e8c],
      ¬ (e.fromId = e8b.fromId ∧ e.toId = e8b.toId)) := by
  decide

/-- C8 (amended): after normalization every remaining edge has both
endpoints in the current device id set and at most one edge per ordered
`(fromId, toId)` pair remains; de-duplication is keyed on the concatenated
string `fromId=>toId`, so whenever no device id contains the substring
`=>`, the result is exactly the valid edges de-duplicated by ordered pair
with the first occurrence kept. -/
theorem c8_normalization_amended (ids : List String) (conns : List Conn) :
    (∀ e ∈ normalizeConnections ids conns, e.fromId ∈ ids ∧ e.toId ∈ ids) ∧
    (normalizeConnections ids conns).Pairwise
      (fun a b => ¬ (a.fromId = b.fromId ∧ a.toId = b.toId)) ∧
    ((∀ s ∈ ids, strIncludes s "=>" = false) →
      normalizeConnections ids conns = specNormalize ids conns) := by
  refine ⟨fun e he => normalizeAux_endpoints ids conns [] e he, ?_, ?_⟩
  · have hp := (normalizeAux_keys ids conns []).2
    exact hp.imp (fun hk hpair => hk (by rw [hpair.1, hpair.2]))
  · intro hids
    have hids' : ∀ s ∈ ids, hasSub ['=', '>'] s.data = false := by
      intro s hs
      have := hids s hs
      simpa [strIncludes] using this
    have := normalizeAux_eq_dedup ids hids' conns [] (by simp)
    simpa [normalizeConnections, specNormalize] using this

/-- Witness for C8 (amended) at a concrete separator-free device set. -/
theorem c8_normalization_amended_witness :
    (∀ s ∈ ["dev:g1", "dev:h1"], strIncludes s "=>" = false) ∧
    ((∀ e ∈ normalizeConnections ["dev:g1", "dev:h1"]
          [⟨"dev:g1", "dev:h1", some (JNum.fin 10)⟩,
           ⟨"dev:g1", "dev:h1", some (JNum.fin 2)⟩],
        e.fromId ∈ ["dev:g1", "dev:h1"] ∧ e.toId ∈ ["dev:g1", "dev:h1"]) ∧
     (normalizeConnections ["dev:g1", "dev:h1"]
          [⟨"dev:g1", "dev:h1", some (JNum.fin 10)⟩,
           ⟨"dev:g1", "dev:h1", some (JNum.fin 2)⟩]).Pairwise
        (fun a b => ¬ (a.fromId = b.fromId ∧ a.toId = b.toId)) ∧
     ((∀ s ∈ ["dev:g1", "dev:h1"], strIncludes s "=>" = false) →
       normalizeConnections ["dev:g1", "dev:h1"]
           [⟨"dev:g1", "dev:h1", some (JNum.fin 10)⟩,
            ⟨"dev:g1", "dev:h1", some (JNum.fin 2)⟩] =
         specNormalize ["dev:g1", "dev:h1"]
           [⟨"dev:g1", "dev:h1", some (JNum.fin 10)⟩,
            ⟨"dev:g1", "dev:h1", some (JNum.fin 2)⟩])) :=
  ⟨by decide,
   c8_normalization_amended ["dev:g1", "dev:h1"]
     [⟨"dev:g1", "dev:h1", some (JNum.fin 10)⟩,
      ⟨"dev:g1", "dev:h1", some (JNum.fin 2)⟩]⟩

theorem takeWhile_append_all {p : Char → Bool} :
    ∀ (l1 l2 : List Char), (∀ c ∈ l1, p c = true) →
      (l1 ++ l2).takeWhile p = l1 ++ l2.takeWhile p := by
  intro l1
  induction l1 with
  | nil => intro l2 _; simp
  | cons a l1' ih =>
    intro l2 h
    have ha : p a = true := h a (List.mem_cons_self a l1')
    simp only [List.cons_append, List.takeWhile_cons, ha, if_true]
    rw [ih l2 (fun c hc => h c (List.mem_cons_of_mem a hc))]

theorem takeWhile_all {p : Char → Bool} (l : List Char)
    (h : ∀ c ∈ l, p c = true) : l.takeWhile p = l := by
  have := takeWhile_append_all l [] h
  simpa using this

theorem gcLoop_echo_eq_recorded :
    ∀ (inbound : List String) (cur : String) (c b : Nat),
      (gcLoop cur inbound c b).2 = (gcLoop cur inbound c b).1 := by
  intro inbound
  induction inbound with
  | nil =>
    intro cur c b
    rw [gcLoop]
    split_ifs <;> rfl
  | cons l rest ih =>
    intro cur c b
    rw [gcLoop]
    split_ifs <;> simp [ih]

theorem gcLoop_recorded_wf :
    ∀ (inbound : List String) (cur : String) (c b : Nat) (l : String),
      l ∈ (gcLoop cur inbound c b).1 → l ≠ "" ∧ l ≠ "eoc" := by
  intro inbound
  induction inbound with
  | nil =>
    intro cur c b l hl
    rw [gcLoop] at hl
    by_cases h1 : 128 ≤ c
    · simp [h1] at hl
    · by_cases h2 : cur = ""
      · simp [h1, h2, ite_self] at hl
      · by_cases h3 : cur = "eoc"
        · simp [h1, h2, h3] at hl
        · simp [h1, h2, h3] at hl
          exact hl ▸ ⟨h2, h3⟩
  | cons x rest ih =>
    intro cur c b l hl
    rw [gcLoop] at hl
    by_cases h1 : 128 ≤ c
    · simp [h1] at hl
    · by_cases h2 : cur = ""
      · by_cases h3 : 50 ≤ b + 1
        · simp [h1, h2, h3] at hl
        · simp [h1, h2, h3] at hl
          exact ih _ _ _ _ hl
      · by_cases h3 : cur = "eoc"
        · simp [h1, h2, h3] at hl
        · simp [h1, h2, h3] at hl
          rcases hl with rfl | hmem
          · exact ⟨h2, h3⟩
          · exact ih _ _ _ _ hmem

theorem tryArity_digits (mark : Char) (ds tail : List Char)
    (hne : ds ≠ []) (hds : ∀ c ∈ ds, c.isDigit = true)
    (htail : ds ++ tail = [] ∨ (ds ++ tail).takeWhile Char.isDigit = ds) :
    tryArity mark (mark :: (ds ++ tail)) = some (digitsToNat ds, tail) := by
  have htw : (ds ++ tail).takeWhile Char.isDigit = ds := by
    rcases htail with h | h
    · rcases List.append_eq_nil.mp h with ⟨rfl, _⟩
      exact absurd rfl hne
    · exact h
  have hie : ds.isEmpty = false := by
    cases ds with
    | nil => exact absurd rfl hne
    | cons a l => rfl
  rw [tryArity]
  simp only [eq_self_iff_true, if_true, htw, hie, Bool.false_eq_true, if_false,
    List.drop_left]

theorem parseCommand_split (nameCh tail : List Char)
    (hne : nameCh ≠ []) (hid : ∀ c ∈ nameCh, isIdentChar c = true)
    (ht : tail.takeWhile isIdentChar = []) :
    parseCommand (String.mk (nameCh ++ tail)) =
      ⟨String.mk nameCh,
       (match tryArity '>' tail with | some p => p.1 | none => 0),
       (match tryArity '<' (match tryArity '>' tail with
          | some p => p.2 | none => tail) with
        | some p => p.1 | none => 0)⟩ := by
  have hdata : (String.mk (nameCh ++ tail)).data = nameCh ++ tail := rfl
  have htw : (nameCh ++ tail).takeWhile isIdentChar = nameCh := by
    rw [takeWhile_append_all nameCh tail hid, ht, List.append_nil]
  have hie : nameCh.isEmpty = false := by
    cases nameCh with
    | nil => exact absurd rfl hne
    | cons a l => rfl
  rw [parseCommand]
  simp only [hdata, htw, hie, Bool.false_eq_true, if_false, List.drop_left]
  rcases hA : tryArity '>' tail with _ | ⟨n, r⟩ <;> simp [hA]
  · rcases hB : tryArity '<' tail with _ | ⟨m, s⟩ <;> simp [hB]
  · rcases hB : tryArity '<' r with _ | ⟨m, s⟩ <;> simp [hB]

/-- C3 counterexample: discovery echoes the full raw signature line, not the
bare base name — on reading `getKW<1` the loop echoes `getKW<1` although the
parsed base is `getKW` — and the discovery parser's identifier class is
`[a-zA-Z_]+` (no digits), so on `a2>3` it records base `a` with both
arities 0, whereas the claimed class `[A-Za-z_][A-Za-z0-9_]*` (used only by
the UI re-parser, `firmwareBase`) would give base `a2` and output arity 3. -/
theorem c3_discovery_counterexample :
    getCommands "getKW<1" ["eoc"] = (["getKW<1"], ["getKW<1"]) ∧
    parseCommand "getKW<1" = ⟨"getKW", 0, 1⟩ ∧
    ("getKW<1" : String) ≠ "getKW" ∧
    parseCommand "a2>3" = ⟨"a", 0, 0⟩ ∧
    firmwareBase "a2>3" = "a2" ∧
    (⟨"a", 0, 0⟩ : ParsedCmd) ≠ ⟨"a2", 3, 0⟩ := by
  refine ⟨by decide, by decide, by decide, by decide, by decide, by decide⟩

/-- C3 (amended): during discovery every recorded line is non-blank and not
the sentinel `eoc`, and the line echoed back on the transport before the
next read is the full raw signature line just recorded (echo list equals
recorded list); a recorded signature is parsed by `parseCommand` as
`name[>N][<M]` with the leading identifier drawn from `[a-zA-Z_]+` (digits
excluded) and with `>N` the output arity and `<M` the input arity, each
defaulting to 0. -/
theorem c3_discovery_amended :
    (∀ (inbound : List String) (first : String),
      (getCommands first inbound).2 = (getCommands first inbound).1) ∧
    (∀ (inbound : List String) (first l : String),
      l ∈ (getCommands first inbound).1 → l ≠ "" ∧ l ≠ "eoc") ∧
    (∀ nameCh : List Char, nameCh ≠ [] → (∀ c ∈ nameCh, isIdentChar c = true) →
      parseCommand (String.mk nameCh) = ⟨String.mk nameCh, 0, 0⟩) ∧
    (∀ nameCh ds : List Char, nameCh ≠ [] →
      (∀ c ∈ nameCh, isIdentChar c = true) →
      ds ≠ [] → (∀ c ∈ ds, c.isDigit = true) →
      parseCommand (String.mk (nameCh ++ '>' :: ds)) =
        ⟨String.mk nameCh, digitsToNat ds, 0⟩) ∧
    (∀ nameCh ds : List Char, nameCh ≠ [] →
      (∀ c ∈ nameCh, isIdentChar c = true) →
      ds ≠ [] → (∀ c ∈ ds, c.isDigit = true) →
      parseCommand (String.mk (nameCh ++ '<' :: ds)) =
        ⟨String.mk nameCh, 0, digitsToNat ds⟩) ∧
    (∀ nameCh ds1 ds2 : List Char, nameCh ≠ [] →
      (∀ c ∈ nameCh, isIdentChar c = true) →
      ds1 ≠ [] → (∀ c ∈ ds1, c.isDigit = true) →
      ds2 ≠ [] → (∀ c ∈ ds2, c.isDigit = true) →
      parseCommand (String.mk (nameCh ++ '>' :: (ds1 ++ '<' :: ds2))) =
        ⟨String.mk nameCh, digitsToNat ds1, digitsToNat ds2⟩) := by
  have hgt : isIdentChar '>' = false := by decide
  have hlt : isIdentChar '<' = false := by decide
  have hltd : Char.isDigit '<' = false := by decide
  refine ⟨?_, ?_, ?_, ?_, ?_, ?_⟩
  · intro inbound first
    exact gcLoop_echo_eq_recorded inbound first 0 0
  · intro inbound first l hl
    exact gcLoop_recorded_wf inbound first 0 0 l hl
  · intro nameCh hne hid
    have h := parseCommand_split nameCh [] hne hid rfl
    simpa [tryArity] using h
  · intro nameCh ds hne hid hdne hds
    have ht : ('>' :: ds).takeWhile isIdentChar = [] := by
      simp [List.takeWhile_cons, hgt]
    have hta := tryArity_digits '>' ds [] hdne hds
      (Or.inr (by rw [List.append_nil]; exact takeWhile_all ds hds))
    rw [List.append_nil] at hta
    have h := parseCommand_split nameCh ('>' :: ds) hne hid ht
    have h0 : tryArity '<' ([] : List Char) = none := rfl
    rw [h]
    simp [hta, h0]
  · intro nameCh ds hne hid hdne hds
    have ht : ('<' :: ds).takeWhile isIdentChar = [] := by
      simp [List.takeWhile_cons, hlt]
    have hta := tryArity_digits '<' ds [] hdne hds
      (Or.inr (by rw [List.append_nil]; exact takeWhile_all ds hds))
    rw [List.append_nil] at hta
    have hnone : tryArity '>' ('<' :: ds) = none := by
      rw [tryArity]
      simp
    have h := parseCommand_split nameCh ('<' :: ds) hne hid ht
    rw [h]
    simp [hnone, hta]
  · intro nameCh ds1 ds2 hne hid hd1ne hds1 hd2ne hds2
    have ht : ('>' :: (ds1 ++ '<' :: ds2)).takeWhile isIdentChar = [] := by
      simp [List.takeWhile_cons, hgt]
    have htw1 : (ds1 ++ '<' :: ds2).takeWhile Char.isDigit = ds1 := by
      rw [takeWhile_append_all ds1 ('<' :: ds2) hds1]
      simp [List.takeWhile_cons, hltd]
    have hta1 := tryArity_digits '>' ds1 ('<' :: ds2) hd1ne hds1 (Or.inr htw1)
    have hta2 := tryArity_digits '<' ds2 [] hd2ne hds2
      (Or.inr (by rw [List.append_nil]; exact takeWhile_all ds2 hds2))
    rw [List.append_nil] at hta2
    have h := parseCommand_split nameCh ('>' :: (ds1 ++ '<' :: ds2)) hne hid ht
    rw [h]
    simp [hta1, hta2]

/-- Witness for C3 (amended) at concrete signatures. -/
theorem c3_discovery_amended_witness :
    ((getCommands "getKW<1" ["eoc"]).2 = (getCommands "getKW<1" ["eoc"]).1) ∧
    (("getKW<1" : String) ≠ "" ∧ ("getKW<1" : String) ≠ "eoc") ∧
    parseCommand (String.mk "name".data) = ⟨String.mk "name".data, 0, 0⟩ ∧
    parseCommand (String.mk ("name".data ++ '>' :: ['2'])) =
      ⟨String.mk "name".data, digitsToNat ['2'], 0⟩ ∧
    parseCommand (String.mk ("name".data ++ '<' :: ['1'])) =
      ⟨String.mk "name".data, 0, digitsToNat ['1']⟩ ∧
    parseCommand (String.mk ("name".data ++ '>' :: (['2'] ++ '<' :: ['1']))) =
      ⟨String.mk "name".data, digitsToNat ['2'], digitsToNat ['1']⟩ :=
  ⟨c3_discovery_amended.1 ["eoc"] "getKW<1",
   c3_discovery_amended.2.1 ["eoc"] "getKW<1" "getKW<1" (by decide),
   c3_discovery_amended.2.2.1 "name".data (by decide) (by decide),
   c3_discovery_amended.2.2.2.1 "name".data ['2'] (by decide) (by decide)
     (by decide) (by decide),
   c3_discovery_amended.2.2.2.2.1 "name".data ['1'] (by decide) (by decide)
     (by decide) (by decide),
   c3_discovery_amended.2.2.2.2.2 "name".data ['2'] ['1'] (by decide) (by decide)
     (by decide) (by decide) (by decide) (by decide)⟩

theorem interleave_symm :
    ∀ {as bs cs : List Ev}, Interleave as bs cs → Interleave bs as cs := by
  intro as bs cs h
  induction h with
  | nil => exact Interleave.nil
  | left _ ih => exact Interleave.right ih
  | right _ ih => exact Interleave.left ih

theorem interleave_filter_take {p : Ev → Bool} :
    ∀ {as bs cs : List Ev}, Interleave as bs cs →
      (∀ b ∈ bs, p b = false) →
      ∀ k : Nat, ∃ i, (cs.take k).filter p = (as.take i).filter p := by
  intro as bs cs h
  induction h with
  | nil => intro _ k; exact ⟨0, by simp⟩
  | @left a as' bs' cs' _ ih =>
    intro hb k
    cases k with
    | zero => exact ⟨0, rfl⟩
    | succ k' =>
      obtain ⟨i, hi⟩ := ih hb k'
      refine ⟨i + 1, ?_⟩
      simp only [List.take_succ_cons, List.filter_cons]
      rw [hi]
  | @right b as' bs' cs' _ ih =>
    intro hb k
    have hbtail : ∀ x ∈ bs', p x = false :=
      fun x hx => hb x (List.mem_cons_of_mem _ hx)
    cases k with
    | zero => exact ⟨0, rfl⟩
    | succ k' =>
      obtain ⟨i, hi⟩ := ih hbtail k'
      refine ⟨i, ?_⟩
      have hpb : p b = false := hb b (List.mem_cons_self _ _)
      simp only [List.take_succ_cons, List.filter_cons, hpb, Bool.false_eq_true,
        if_false]
      exact hi

theorem chainTrace_succ (d : String) (n : Nat) :
    chainTrace d (n + 1) =
      chainTrace d n ++ [⟨d, n, true⟩, ⟨d, n, false⟩] := by
  unfold chainTrace
  rw [List.range_succ, List.flatMap_append]
  simp

theorem chainTrace_mem_dev {d : String} {n : Nat} {e : Ev}
    (h : e ∈ chainTrace d n) : e.dev = d := by
  rcases List.mem_flatMap.mp h with ⟨i, _, hmem⟩
  simp only [List.mem_cons, List.mem_singleton] at hmem
  rcases hmem with rfl | hmem
  · rfl
  · simp at hmem
    rw [hmem]

theorem chainTrace_weight_sum (d : String) (n : Nat) :
    ((chainTrace d n).map evWeight).sum = 0 := by
  induction n with
  | zero => rfl
  | succ k ih =>
    rw [chainTrace_succ, List.map_append, List.sum_append, ih]
    simp [evWeight]

theorem chainTrace_take_bound (d : String) (n : Nat) :
    ∀ i, (((chainTrace d n).take i).map evWeight).sum ≤ 1 := by
  induction n with
  | zero => intro i; simp [chainTrace]
  | succ k ih =>
    intro i
    rw [chainTrace_succ, List.take_append_eq_append_take, List.map_append,
      List.sum_append]
    rcases le_or_lt i (chainTrace d k).length with hle | hgt
    · have h0 : i - (chainTrace d k).length = 0 := Nat.sub_eq_zero_of_le hle
      rw [h0]
      simpa using ih i
    · have hfull : (chainTrace d k).take i = chainTrace d k :=
        List.take_of_length_le (le_of_lt hgt)
      rw [hfull, chainTrace_weight_sum]
      cases hr : i - (chainTrace d k).length with
      | zero => simp
      | succ r =>
        cases r with
        | zero => simp [evWeight]
        | succ r2 =>
          have ht2 : List.take (r2 + 1 + 1) [(⟨d, k, true⟩ : Ev), ⟨d, k, false⟩] =
              [⟨d, k, true⟩, ⟨d, k, false⟩] := by
            simp
          rw [ht2]
          simp [evWeight]

theorem chainTrace_finish_mem {d : String} {n j : Nat} (h : j < n) :
    (⟨d, j, false⟩ : Ev) ∈ chainTrace d n := by
  unfold chainTrace
  refine List.mem_flatMap.mpr ⟨j, List.mem_range.mpr h, ?_⟩
  simp

theorem chainTrace_start_take {d : String} {n : Nat} :
    ∀ (t i : Nat), (⟨d, i, true⟩ : Ev) ∈ (chainTrace d n).take t →
      ∀ j, j < i → (⟨d, j, false⟩ : Ev) ∈ (chainTrace d n).take t := by
  induction n with
  | zero => intro t i h; simp [chainTrace] at h
  | succ k ih =>
    intro t i h j hj
    rw [chainTrace_succ, List.take_append_eq_append_take] at h ⊢
    rcases List.mem_append.mp h with hL | hR
    · exact List.mem_append.mpr (Or.inl (ih t i hL j hj))
    · have hmem2 := List.mem_of_mem_take hR
      have hik : i = k := by
        simp only [List.mem_cons, List.not_mem_nil, or_false, Ev.mk.injEq] at hmem2
        rcases hmem2 with ⟨-, hik, -⟩ | ⟨-, -, hcontra⟩
        · exact hik
        · exact absurd hcontra (by decide)
      have hjk : j < k := hik ▸ hj
      have ht : (chainTrace d k).length < t := by
        by_contra hle
        push_neg at hle
        have h0 : t - (chainTrace d k).length = 0 := Nat.sub_eq_zero_of_le hle
        rw [h0] at hR
        simp at hR
      have hfull : (chainTrace d k).take t = chainTrace d k :=
        List.take_of_length_le (le_of_lt ht)
      refine List.mem_append.mpr (Or.inl ?_)
      rw [hfull]
      exact chainTrace_finish_mem hjk

/-- C5: for any interleaving of two device promise chains (distinct device
ids), each device's running-task counter never exceeds 1 on any prefix, a
task starts only after every earlier task of the same device has settled,
the chain step `prev.catch(() => undefined).then(() => taskFn())` delivers
each task's own outcome (including a failure) to its caller regardless of
the previous task's failure, and tasks of distinct device ids can be
simultaneously running in some interleaving. -/
theorem c5_device_queue (d1 d2 : String) (n m : Nat) (tr : List Ev) (k : Nat)
    (hne : d1 ≠ d2)
    (hint : Interleave (chainTrace d1 n) (chainTrace d2 m) tr) :
    runningCount d1 (tr.take k) ≤ 1 ∧
    runningCount d2 (tr.take k) ≤ 1 ∧
    (∀ i j : Nat, j < i → (⟨d1, i, true⟩ : Ev) ∈ tr.take k →
      (⟨d1, j, false⟩ : Ev) ∈ tr.take k) ∧
    (∀ (prev : POut) (task : Unit → POut), enqueueResult prev task = task ()) ∧
    (∃ tr2 : List Ev, Interleave (chainTrace "a" 1) (chainTrace "b" 1) tr2 ∧
      runningCount "a" (tr2.take 2) = 1 ∧ runningCount "b" (tr2.take 2) = 1) := by
  have hbs1 : ∀ b ∈ chainTrace d2 m, (decide (b.dev = d1)) = false := by
    intro b hb
    have hbd := chainTrace_mem_dev hb
    simp [hbd, hne.symm]
  have hbs2 : ∀ b ∈ chainTrace d1 n, (decide (b.dev = d2)) = false := by
    intro b hb
    have hbd := chainTrace_mem_dev hb
    simp [hbd, hne]
  obtain ⟨i1, hf1⟩ := interleave_filter_take hint hbs1 k
  obtain ⟨i2, hf2⟩ := interleave_filter_take (interleave_symm hint) hbs2 k
  have hself1 : ((chainTrace d1 n).take i1).filter (fun e => e.dev = d1) =
      (chainTrace d1 n).take i1 := by
    refine List.filter_eq_self.mpr (fun e he => ?_)
    have hd := chainTrace_mem_dev (List.mem_of_mem_take he)
    simp [hd]
  have hself2 : ((chainTrace d2 m).take i2).filter (fun e => e.dev = d2) =
      (chainTrace d2 m).take i2 := by
    refine List.filter_eq_self.mpr (fun e he => ?_)
    have hd := chainTrace_mem_dev (List.mem_of_mem_take he)
    simp [hd]
  refine ⟨?_, ?_, ?_, ?_, ?_⟩
  · unfold runningCount
    rw [hf1, hself1]
    exact chainTrace_take_bound d1 n i1
  · unfold runningCount
    rw [hf2, hself2]
    exact chainTrace_take_bound d2 m i2
  · intro i j hj hstart
    have hstartf : (⟨d1, i, true⟩ : Ev) ∈ (tr.take k).filter (fun e => e.dev = d1) := by
      refine List.mem_filter.mpr ⟨hstart, ?_⟩
      simp
    rw [hf1, hself1] at hstartf
    have hfinish := chainTrace_start_take i1 i hstartf j hj
    have hfinishf : (⟨d1, j, false⟩ : Ev) ∈
        (tr.take k).filter (fun e => e.dev = d1) := by
      rw [hf1, hself1]
      exact hfinish
    exact List.mem_filter.mp hfinishf |>.1
  · intro prev task
    cases prev <;> rfl
  · refine ⟨[⟨"a", 0, true⟩, ⟨"b", 0, true⟩, ⟨"b", 0, false⟩, ⟨"a", 0, false⟩],
      ?_, by decide, by decide⟩
    exact Interleave.left (Interleave.right (Interleave.right
      (Interleave.left Interleave.nil)))

/-- Witness for C5 at two concrete single-task chains and the interleaving
start a, start b, settle b, settle a. -/
theorem c5_device_queue_witness :
    runningCount "a" (([⟨"a", 0, true⟩, ⟨"b", 0, true⟩, ⟨"b", 0, false⟩,
        ⟨"a", 0, false⟩] : List Ev).take 2) ≤ 1 ∧
    runningCount "b" (([⟨"a", 0, true⟩, ⟨"b", 0, true⟩, ⟨"b", 0, false⟩,
        ⟨"a", 0, false⟩] : List Ev).take 2) ≤ 1 :=
  have hint : Interleave (chainTrace "a" 1) (chainTrace "b" 1)
      [⟨"a", 0, true⟩, ⟨"b", 0, true⟩, ⟨"b", 0, false⟩, ⟨"a", 0, false⟩] :=
    Interleave.left (Interleave.right (Interleave.right
      (Interleave.left Interleave.nil)))
  ⟨(c5_device_queue "a" "b" 1 1 _ 2 (by decide) hint).1,
   (c5_device_queue "a" "b" 1 1 _ 2 (by decide) hint).2.1⟩

theorem round2_intCast (z : ℤ) : round2 ((z : ℚ)) = (z : ℚ) := by
  unfold round2
  have hfl : Int.floor ((z : ℚ) * 100 + 1 / 2) = z * 100 := by
    rw [Int.floor_eq_iff]
    constructor
    · push_cast
      norm_num
    · push_cast
      norm_num
  rw [hfl]
  push_cast
  ring

theorem mode2_run_eq (st : Mode2State) (gen : DeviceInfo) (rest : List DeviceInfo)
    (hgen : getConnectedGeneratorDevices st = gen :: rest)
    (hsafe : st.safeMode = false) :
    applyConnectionsMode2 st =
      if specSuppress st gen then
        Mode2Result.suppressed (specDemandKW st) (specOtherSupplyKW st)
          (specMode2TargetRounded st gen)
      else
        Mode2Result.dispatched gen.id (specDemandKW st) (specOtherSupplyKW st)
          (specMode2TargetRounded st gen) := by
  have ht := computeMode2TargetKW_eq st
  have htarget : specMode2TargetRounded st gen =
      round2 (match (match (computeEstimatedKW st.preferManual st.estOf
            (some gen) none).kw with
          | some k => if 0 ≤ k then some k else none
          | none => none) with
        | none => max 0 (specDemandKW st - specOtherSupplyKW st)
        | some m => min (max 0 (specDemandKW st - specOtherSupplyKW st)) m) := by
    rcases hcap : (computeEstimatedKW st.preferManual st.estOf (some gen) none).kw
      with _ | k
    · simp [specMode2TargetRounded, hcap]
    · by_cases hk : 0 ≤ k
      · simp [specMode2TargetRounded, hcap, hk]
      · simp [specMode2TargetRounded, hcap, hk]
  simp only [applyConnectionsMode2, hgen, ht, hsafe, Bool.false_eq_true, if_false,
    specSuppress, htarget]

theorem stateA_gens : getConnectedGeneratorDevices stateA = [genDev] := by decide

theorem stateB_gens : getConnectedGeneratorDevices stateB = [genDev] := by decide

theorem stateARepeat_gens : getConnectedGeneratorDevices stateARepeat = [genDev] := by
  decide

theorem stateA_demand : specDemandKW stateA = 10 := by
  norm_num [specDemandKW, stateA, getConnectionKW]

theorem stateB_demand : specDemandKW stateB = 10 := by
  norm_num [specDemandKW, stateB, stateA, getConnectionKW]

theorem stateARepeat_demand : specDemandKW stateARepeat = 10 := by
  norm_num [specDemandKW, stateARepeat, stateA, getConnectionKW]

theorem str_provider_ne : ("provider" : String) ≠ "consumer" := by decide

theorem str_generator_ne : ("Generator" : String) ≠ "Solar Panel" := by decide

theorem solar_est_A : (computeEstimatedKW false estStoreA (some solarDev) none).kw =
    some 4 := by
  norm_num [computeEstimatedKW, estimateDefault, estStoreA, solarDev,
    parsePositiveNumber, clamp01OrOne, str_provider_ne]

theorem solar_est_B : (computeEstimatedKW false estStoreB (some solarDev) none).kw =
    some 4 := by
  norm_num [computeEstimatedKW, estimateDefault, estStoreB, solarDev,
    parsePositiveNumber, clamp01OrOne, str_provider_ne]

theorem gen_est_A : (computeEstimatedKW false estStoreA (some genDev) none).kw =
    none := by
  norm_num [computeEstimatedKW, estimateDefault, estStoreA, genDev,
    parsePositiveNumber, str_provider_ne, str_generator_ne]

theorem gen_est_B : (computeEstimatedKW false estStoreB (some genDev) none).kw =
    some 3 := by
  norm_num [computeEstimatedKW, estimateDefault, estStoreB, genDev,
    parsePositiveNumber, clamp01OrOne, str_provider_ne, str_generator_ne]

theorem filter_genDev :
    ((decide (genDev.type = "provider")) && !isGenerator genDev) = false := by decide

theorem filter_solarDev :
    ((decide (solarDev.type = "provider")) && !isGenerator solarDev) = true := by
  decide

theorem filter_houseDev :
    ((decide (houseDev.type = "provider")) && !isGenerator houseDev) = false := by
  decide

theorem stateA_other : specOtherSupplyKW stateA = 4 := by
  simp only [specOtherSupplyKW, stateA, List.cons_append, List.nil_append,
    List.filter_cons, filter_genDev, filter_solarDev, filter_houseDev,
    Bool.false_eq_true, if_false, if_true, List.filter_nil, List.map_cons,
    List.map_nil, List.sum_cons, List.sum_nil, solar_est_A, Option.getD_some]
  norm_num

theorem stateB_other : specOtherSupplyKW stateB = 4 := by
  simp only [specOtherSupplyKW, stateB, stateA, List.cons_append, List.nil_append,
    List.filter_cons, filter_genDev, filter_solarDev, filter_houseDev,
    Bool.false_eq_true, if_false, if_true, List.filter_nil, List.map_cons,
    List.map_nil, List.sum_cons, List.sum_nil, solar_est_B, Option.getD_some]
  norm_num

theorem stateARepeat_other : specOtherSupplyKW stateARepeat = 4 := by
  simp only [specOtherSupplyKW, stateARepeat, stateA, List.cons_append,
    List.nil_append, List.filter_cons, filter_genDev, filter_solarDev,
    filter_houseDev, Bool.false_eq_true, if_false, if_true, List.filter_nil,
    List.map_cons, List.map_nil, List.sum_cons, List.sum_nil, solar_est_A,
    Option.getD_some]
  norm_num

theorem round2_six : round2 (6 : ℚ) = 6 := by
  have h := round2_intCast 6
  norm_num at h
  exact h

theorem round2_three : round2 (3 : ℚ) = 3 := by
  have h := round2_intCast 3
  norm_num at h
  exact h

theorem stateA_target : specMode2TargetRounded stateA genDev = 6 := by
  simp only [specMode2TargetRounded, stateA_demand, stateA_other]
  have hp : stateA.preferManual = false := rfl
  have he : stateA.estOf = estStoreA := rfl
  rw [hp, he, gen_est_A]
  rw [show ((10 : ℚ) - 4) = 6 by norm_num,
    show max (0 : ℚ) 6 = 6 from max_eq_right (by norm_num)]
  exact round2_six

theorem stateB_target : specMode2TargetRounded stateB genDev = 3 := by
  simp only [specMode2TargetRounded, stateB_demand, stateB_other]
  have hp : stateB.preferManual = false := rfl
  have he : stateB.estOf = estStoreB := rfl
  rw [hp, he, gen_est_B]
  rw [show ((10 : ℚ) - 4) = 6 by norm_num,
    show max (0 : ℚ) 6 = 6 from max_eq_right (by norm_num)]
  simp only [show (0 : ℚ) ≤ 3 by norm_num, if_true, reduceIte]
  rw [show min (6 : ℚ) 3 = 3 from min_eq_right (by norm_num)]
  exact round2_three

theorem stateARepeat_target : specMode2TargetRounded stateARepeat genDev = 6 := by
  simp only [specMode2TargetRounded, stateARepeat_demand, stateARepeat_other]
  have hp : stateARepeat.preferManual = false := rfl
  have he : stateARepeat.estOf = estStoreA := rfl
  rw [hp, he, gen_est_A]
  rw [show ((10 : ℚ) - 4) = 6 by norm_num,
    show max (0 : ℚ) 6 = 6 from max_eq_right (by norm_num)]
  exact round2_six

theorem stateA_nosup : specSuppress stateA genDev = false := rfl

theorem stateB_nosup : specSuppress stateB genDev = false := rfl

theorem stateARepeat_sup : specSuppress stateARepeat genDev = true := by
  have hl : stateARepeat.lastApplied = some ("g1", 6) := rfl
  simp only [specSuppress, hl, stateARepeat_target]
  norm_num [genDev]

/-- C1: the Mode 2 computation agrees with the spec formulas — demandKW is
the sum of edge kW over all connection edges, otherSupplyKW is the sum of
estimated kW of non-generator provider devices, deficitKW is
`max(0, demandKW - otherSupplyKW)`; with a connected generator and safe
mode off, a run dispatches the 2-decimal rounding of `min(deficit, cap)`
(or of the deficit without a capacity estimate) and is suppressed exactly
when the last applied target for the same generator id is within 0.01 of
the new rounded target; concretely, demand 10 and other supply 4 give
target 6.00 without a cap and 3.00 with cap 3, and an immediately repeated
identical computation is suppressed. -/
theorem c1_mode2_balance :
    (∀ st : Mode2State,
      (computeMode2TargetKW st).demandKW = specDemandKW st ∧
      (computeMode2TargetKW st).otherSupplyKW = specOtherSupplyKW st ∧
      (computeMode2TargetKW st).deficitKW =
        max 0 (specDemandKW st - specOtherSupplyKW st)) ∧
    (∀ (st : Mode2State) (gen : DeviceInfo) (rest : List DeviceInfo),
      getConnectedGeneratorDevices st = gen :: rest →
      st.safeMode = false →
      applyConnectionsMode2 st =
        if specSuppress st gen then
          Mode2Result.suppressed (specDemandKW st) (specOtherSupplyKW st)
            (specMode2TargetRounded st gen)
        else
          Mode2Result.dispatched gen.id (specDemandKW st) (specOtherSupplyKW st)
            (specMode2TargetRounded st gen)) ∧
    applyConnectionsMode2 stateA = Mode2Result.dispatched "g1" 10 4 6 ∧
    applyConnectionsMode2 stateB = Mode2Result.dispatched "g1" 10 4 3 ∧
    applyConnectionsMode2 stateARepeat = Mode2Result.suppressed 10 4 6 := by
  refine ⟨?_, fun st gen rest hgen hsafe => mode2_run_eq st gen rest hgen hsafe,
    ?_, ?_, ?_⟩
  · intro st
    rw [computeMode2TargetKW_eq]
    exact ⟨rfl, rfl, rfl⟩
  · rw [mode2_run_eq stateA genDev [] stateA_gens rfl, stateA_nosup]
    simp only [Bool.false_eq_true, if_false, stateA_demand, stateA_other,
      stateA_target]
    rfl
  · rw [mode2_run_eq stateB genDev [] stateB_gens rfl, stateB_nosup]
    simp only [Bool.false_eq_true, if_false, stateB_demand, stateB_other,
      stateB_target]
    rfl
  · rw [mode2_run_eq stateARepeat genDev [] stateARepeat_gens rfl, stateARepeat_sup]
    simp only [if_true, reduceIte, stateARepeat_demand, stateARepeat_other,
      stateARepeat_target]

/-- Witness for C1 at the repeated-computation state. -/
theorem c1_mode2_balance_witness :
    applyConnectionsMode2 stateARepeat =
      if specSuppress stateARepeat genDev then
        Mode2Result.suppressed (specDemandKW stateARepeat)
          (specOtherSupplyKW stateARepeat)
          (specMode2TargetRounded stateARepeat genDev)
      else
        Mode2Result.dispatched genDev.id (specDemandKW stateARepeat)
          (specOtherSupplyKW stateARepeat)
          (specMode2TargetRounded stateARepeat genDev) :=
  c1_mode2_balance.2.1 stateARepeat genDev [] (by decide) rfl

end REv
